import Mathlib

/-!
Shallow embedding of the utiljs-pro utility library (src/src/index.ts) and
proofs of its specified properties.

JavaScript runtime values are modelled by the inductive type `JSVal`; numbers
are modelled by `JSNum` (a rational value, NaN, or a signed infinity), which is
exact for every number the specified functions distinguish.  Reference-typed
values (objects, arrays, functions, promises, symbols) carry an abstract heap
reference `ref : Nat`; JavaScript strict equality `===` compares such values by
reference, which `jsStrictEq` mirrors.

The host coercion `Number(s)` on strings is modelled by `jsStringToNumber` on
its decimal fragment (optional whitespace, optional sign, decimal digits with
optional fraction and exponent, and the Infinity literal); hexadecimal, octal
and binary numeric literals are outside the modelled fragment.
-/

set_option autoImplicit false

namespace UtilJs

/-- A JavaScript number: NaN, a signed infinity, or an exact finite value. -/
inductive JSNum where
  | nan : JSNum
  | inf (neg : Bool) : JSNum
  | val (q : ℚ) : JSNum
deriving DecidableEq, Repr

/-- A JavaScript runtime value.  Reference-typed values carry an abstract heap
reference; `funcV` additionally carries the source text its `toString` returns,
and `arrV` the array's length. -/
inductive JSVal where
  | num (n : JSNum) : JSVal
  | str (s : String) : JSVal
  | boolV (b : Bool) : JSVal
  | nullV : JSVal
  | undef : JSVal
  | symV (ref : Nat) : JSVal
  | objV (ref : Nat) : JSVal
  | arrV (ref : Nat) (len : Nat) : JSVal
  | funcV (ref : Nat) (src : String) : JSVal
  | promiseV (ref : Nat) : JSVal
deriving DecidableEq, Repr

/-- The JavaScript `typeof` operator on the modelled values. -/
def jsTypeof : JSVal → String
  | .num _ => "number"
  | .str _ => "string"
  | .boolV _ => "boolean"
  | .nullV => "object"
  | .undef => "undefined"
  | .symV _ => "symbol"
  | .objV _ => "object"
  | .arrV _ _ => "object"
  | .funcV _ _ => "function"
  | .promiseV _ => "object"

/-- JavaScript strict equality `===`: NaN is equal to nothing (itself
included); primitives compare by value; reference types compare by
reference. -/
def jsStrictEq : JSVal → JSVal → Bool
  | .num .nan, _ => false
  | _, .num .nan => false
  | .num a, .num b => decide (a = b)
  | .str a, .str b => a == b
  | .boolV a, .boolV b => a == b
  | .nullV, .nullV => true
  | .undef, .undef => true
  | .symV a, .symV b => a == b
  | .objV a, .objV b => a == b
  | .arrV a _, .arrV b _ => a == b
  | .funcV a _, .funcV b _ => a == b
  | .promiseV a, .promiseV b => a == b
  | _, _ => false

/-- The SameValueZero comparison used by `Set` membership: like `===` except
that NaN equals NaN. -/
def sameValueZero (a b : JSVal) : Bool :=
  match a, b with
  | .num .nan, .num .nan => true
  | _, _ => jsStrictEq a b

/-- Whitespace characters recognised by the string-to-number coercion. -/
def isJsWhitespace (c : Char) : Bool :=
  c = ' ' || c = '\t' || c = '\n' || c = '\r' || c = '\x0b' || c = '\x0c' || c = ' '

/-- Value of a string of decimal digits. -/
def digitsToNat (l : List Char) : Nat :=
  l.foldl (fun n c => n * 10 + (c.toNat - 48)) 0

/-- A decimal mantissa: `digits`, `digits.digits`, `digits.` or `.digits`
(at least one digit overall), split into integer and fraction digits. -/
def parseDecimalMantissa (l : List Char) : Option (List Char × List Char) :=
  let ip := l.takeWhile Char.isDigit
  match l.dropWhile Char.isDigit with
  | [] => if ip.isEmpty then none else some (ip, [])
  | '.' :: fp =>
    if fp.all Char.isDigit && (!ip.isEmpty || !fp.isEmpty) then some (ip, fp)
    else none
  | _ => none

/-- The exact rational value of a signed decimal literal with integer digits
`ip`, fraction digits `fp` and decimal exponent `e`. -/
def decimalValue (neg : Bool) (ip fp : List Char) (e : Int) : ℚ :=
  let m : Int := (digitsToNat (ip ++ fp) : Int)
  let m' : Int := if neg then -m else m
  let k : Int := e - (fp.length : Int)
  if 0 ≤ k then mkRat (m' * ((10 : Nat) ^ k.toNat : Nat)) 1
  else mkRat m' ((10 : Nat) ^ (-k).toNat)

/-- A signed decimal exponent (the part after `e`/`E`). -/
def parseSignedExponent (l : List Char) : Option Int :=
  match l with
  | '+' :: d => if !d.isEmpty && d.all Char.isDigit then some (digitsToNat d : Int) else none
  | '-' :: d => if !d.isEmpty && d.all Char.isDigit then some (-(digitsToNat d : Int)) else none
  | d => if !d.isEmpty && d.all Char.isDigit then some (digitsToNat d : Int) else none

/-- The host coercion `Number(s)` on strings, on its decimal fragment:
surrounding whitespace is ignored, the empty (or all-whitespace) string
coerces to `0`, `Infinity` with optional sign is recognised, and otherwise an
optionally signed decimal mantissa with optional exponent is parsed; anything
else is NaN. -/
def jsStringToNumber (s : String) : JSNum :=
  let t := ((s.toList.dropWhile isJsWhitespace).reverse.dropWhile isJsWhitespace).reverse
  match t with
  | [] => .val 0
  | _ =>
    let signedBody : Bool × List Char :=
      match t with
      | '-' :: r => (true, r)
      | '+' :: r => (false, r)
      | r => (false, r)
    let neg := signedBody.1
    let body := signedBody.2
    if body = "Infinity".toList then .inf neg
    else
      let mant := body.takeWhile (fun c => c ≠ 'e' && c ≠ 'E')
      let expPart := body.dropWhile (fun c => c ≠ 'e' && c ≠ 'E')
      let expVal : Option Int :=
        match expPart with
        | [] => some 0
        | _ :: rest => parseSignedExponent rest
      match parseDecimalMantissa mant, expVal with
      | some (ip, fp), some e => .val (decimalValue neg ip fp e)
      | _, _ => .nan

/-- `isNaN` on a number. -/
def jsIsNaN : JSNum → Bool
  | .nan => true
  | _ => false

/-- `Number.isInteger`: false for NaN and the infinities, and for finite
values true exactly when the value is an integer. -/
def jsIsInteger : JSNum → Bool
  | .val q => q.den == 1
  | _ => false

/-- `n >= 0` under JavaScript numeric comparison (false for NaN). -/
def jsNumNonneg : JSNum → Bool
  | .nan => false
  | .inf neg => !neg
  | .val q => decide (0 ≤ q)

/-- `n < len` under JavaScript numeric comparison (false for NaN). -/
def jsNumLtNat (n : JSNum) (len : Nat) : Bool :=
  match n with
  | .nan => false
  | .inf neg => neg
  | .val q => decide (q < (len : ℚ))

/-- `isIndexOf` from src/src/index.ts: a non-empty string argument is first
coerced with `Number`, then the argument passes iff it is a non-NaN integer
number with `0 <= idx < array.length`.  The array-like argument enters only
through its length. -/
def isIndexOf (idx : JSVal) (len : Nat) : Bool :=
  let idx' : JSVal :=
    match idx with
    | .str s => if s.isEmpty then .str s else .num (jsStringToNumber s)
    | v => v
  match idx' with
  | .num n => !(jsIsNaN n) && jsIsInteger n && jsNumNonneg n && jsNumLtNat n len
  | _ => false

/-- `isArray` from src/src/index.ts: `Array.isArray`. -/
def isArray : JSVal → Bool
  | .arrV _ _ => true
  | _ => false

/-- `isIndexable` from src/src/index.ts: `Array.isArray(array) && array.length != 0`. -/
def isIndexable : JSVal → Bool
  | .arrV _ len => len != 0
  | _ => false

/-- `isString` from src/src/index.ts: `typeof value === 'string'`. -/
def isString (v : JSVal) : Bool :=
  jsTypeof v == "string"

/-- `isNumber` from src/src/index.ts: `typeof value === 'number'`. -/
def isNumber (v : JSVal) : Bool :=
  jsTypeof v == "number"

/-- `isPromise` from src/src/index.ts: `obj instanceof Promise`. -/
def isPromise : JSVal → Bool
  | .promiseV _ => true
  | _ => false

/-- `pre` is a prefix of `l` (character lists). -/
def charListIsPrefix : List Char → List Char → Bool
  | [], _ => true
  | _ :: _, [] => false
  | a :: as, b :: bs => a == b && charListIsPrefix as bs

/-- `s.startsWith(pre)` on strings. -/
def strStartsWith (s pre : String) : Bool :=
  charListIsPrefix pre.toList s.toList

/-- `isAsyncFunction` from src/src/index.ts:
`typeof func === 'function' && func?.toString().startsWith('async')`.
A value of type `funcV` has `typeof` equal to `'function'` and its
`toString()` returns the stored source text. -/
def isAsyncFunction : JSVal → Bool
  | .funcV _ src => strStartsWith src "async"
  | _ => false

/-- `arraysEqual` from src/src/index.ts:
`a.length === b.length && a.every((v, i) => v === b[i])`.  Out-of-range
access yields `undefined`, as in the host language. -/
def arraysEqual (a b : List JSVal) : Bool :=
  a.length == b.length &&
    (List.range a.length).all fun i => jsStrictEq (a.getD i .undef) (b.getD i .undef)

/-- Membership test of a JavaScript `Set` (SameValueZero comparison). -/
def setHas (seen : List JSVal) (v : JSVal) : Bool :=
  seen.any fun y => sameValueZero y v

/-- Insertion-order traversal of `new Set(array)`: keep each element whose
SameValueZero class has not been seen before. -/
def uniqueGo (seen : List JSVal) : List JSVal → List JSVal
  | [] => []
  | x :: xs => if setHas seen x then uniqueGo seen xs else x :: uniqueGo (x :: seen) xs

/-- `unique` from src/src/index.ts: `Array.from(new Set(array))`, i.e. the
first occurrence of every SameValueZero class, in encounter order. -/
def unique (l : List JSVal) : List JSVal :=
  uniqueGo [] l

/-- `Array.prototype.indexOf` (strict equality), with explicit start index. -/
def jsIndexOfFrom (item : JSVal) : List JSVal → Nat → Int
  | [], _ => -1
  | x :: xs, i => if jsStrictEq x item then (i : Int) else jsIndexOfFrom item xs (i + 1)

/-- `array.indexOf(item)`: index of the first strictly-equal element, `-1`
when absent. -/
def jsIndexOf (item : JSVal) (arr : List JSVal) : Int :=
  jsIndexOfFrom item arr 0

/-- `array.splice(start, 1)`: the array after mutation together with the
removed elements, with the ECMAScript clamping of a negative start index
(`actualStart = max(len + start, 0)`). -/
def jsSplice1 (arr : List JSVal) (start : Int) : List JSVal × List JSVal :=
  let len : Int := arr.length
  let actual : Nat := (if start < 0 then max (len + start) 0 else min start len).toNat
  (arr.take actual ++ arr.drop (actual + 1), (arr.drop actual).take 1)

/-- `remove` from src/src/index.ts: `return array.splice(array.indexOf(item), 1)`.
The first component is the array after mutation, the second the returned
(removed) elements. -/
def remove (item : JSVal) (arr : List JSVal) : List JSVal × List JSVal :=
  jsSplice1 arr (jsIndexOf item arr)

/-!
### throttle and debounce, observable-state model

The wrapper returned by `throttle(fn, delay)` closes over a single variable
`timer`.  Time is modelled by `Nat` timestamps (milliseconds).  An external
call of the wrapper at time `t` is an event `(t, args)`; in the single-threaded
host, every timer whose deadline is `≤ t` has fired before the call runs, which
`throttleFire` (resp. `debounceFire`) performs.  The `calls` field records the
invocations of the wrapped `fn`, in order, with their arguments.
-/

/-- State of one `throttle` wrapper: the pending cooldown deadline (the
`timer` variable, `none` = `null`) and the invocations of `fn` so far. -/
structure ThrottleState (α : Type) where
  cooldownUntil : Option Nat
  calls : List α
deriving Repr, DecidableEq

/-- The cooldown timer callback `() => { timer = null }`, run when its
deadline has passed at time `t`. -/
def throttleFire {α : Type} (s : ThrottleState α) (t : Nat) : ThrottleState α :=
  match s.cooldownUntil with
  | some e => if e ≤ t then { s with cooldownUntil := none } else s
  | none => s

/-- The body of the throttle wrapper at time `t`: `if (!timer) { fn(...args);
timer = setTimeout(..., delay) }`. -/
def throttleCall {α : Type} (delay : Nat) (s : ThrottleState α) (t : Nat) (a : α) :
    ThrottleState α :=
  match s.cooldownUntil with
  | some _ => s
  | none => { cooldownUntil := some (t + delay), calls := s.calls ++ [a] }

/-- One external call event at time `t`: due timers fire first, then the
wrapper body runs. -/
def throttleStep {α : Type} (delay : Nat) (s : ThrottleState α) (ev : Nat × α) :
    ThrottleState α :=
  throttleCall delay (throttleFire s ev.1) ev.1 ev.2

/-- Run a throttle wrapper over a sequence of call events. -/
def throttleRun {α : Type} (delay : Nat) (s : ThrottleState α) (l : List (Nat × α)) :
    ThrottleState α :=
  l.foldl (throttleStep delay) s

/-- The state of a freshly created throttle wrapper: `timer = null`, no
invocations yet. -/
def throttleInit {α : Type} : ThrottleState α := ⟨none, []⟩

/-- State of one `debounce` wrapper: the pending invocation (deadline and
captured arguments) and the invocations of `fn` so far. -/
structure DebounceState (α : Type) where
  pending : Option (Nat × α)
  calls : List α
deriving Repr, DecidableEq

/-- The debounce timer callback `() => { fn(...args) }`, run when its
deadline has passed at time `t`. -/
def debounceFire {α : Type} (s : DebounceState α) (t : Nat) : DebounceState α :=
  match s.pending with
  | some (e, b) => if e ≤ t then { pending := none, calls := s.calls ++ [b] } else s
  | none => s

/-- The body of the debounce wrapper at time `t`: `if (timer)
clearTimeout(timer); timer = setTimeout(() => fn(...args), delay)` — the
previous pending invocation (if any) is cancelled and a new one is scheduled
with this call's arguments; `fn` itself is not invoked. -/
def debounceCall {α : Type} (delay : Nat) (s : DebounceState α) (t : Nat) (a : α) :
    DebounceState α :=
  { s with pending := some (t + delay, a) }

/-- One external call event at time `t`: due timers fire first, then the
wrapper body runs. -/
def debounceStep {α : Type} (delay : Nat) (s : DebounceState α) (ev : Nat × α) :
    DebounceState α :=
  debounceCall delay (debounceFire s ev.1) ev.1 ev.2

/-- Run a debounce wrapper over a sequence of call events. -/
def debounceRun {α : Type} (delay : Nat) (s : DebounceState α) (l : List (Nat × α)) :
    DebounceState α :=
  l.foldl (debounceStep delay) s

/-- The state of a freshly created debounce wrapper. -/
def debounceInit {α : Type} : DebounceState α := ⟨none, []⟩

/-- The invocations of `fn` once quiescence lasts past any pending deadline:
the pending invocation, if any, eventually fires. -/
def debounceFlush {α : Type} (s : DebounceState α) : List α :=
  match s.pending with
  | some (_, b) => s.calls ++ [b]
  | none => s.calls

/-!
### throttle and debounce, timer-handle model

For the timer-handle invariant the host timer facility is modelled
explicitly: `setTimeout` allocates a fresh positive handle and adds a live
timer entry; `clearTimeout` removes the entry with the given handle (a no-op
if it already fired); a timer entry disappears from the live set when it
fires.  Nothing in the model bounds the number of simultaneously live entries
— that at most one is ever live is proved about the code.
-/

/-- A live timer entry of a throttle wrapper: its handle and deadline. -/
structure TimerEntry where
  id : Nat
  fireAt : Nat
deriving Repr, DecidableEq

/-- Handle-level state of one `throttle` wrapper: the live timers it has
scheduled, its `timer` variable (a handle or `null`), the next fresh handle,
and the invocations of `fn`. -/
structure ThrottleSys (α : Type) where
  live : List TimerEntry
  timerVar : Option Nat
  nextId : Nat
  calls : List α

/-- Initial handle-level throttle state; handles start at 1 (host timer
handles are truthy). -/
def throttleSysInit {α : Type} : ThrottleSys α := ⟨[], none, 1, []⟩

/-- Fire every due timer (deadline `≤ t`): each runs `() => { timer = null }`
and leaves the live set. -/
def throttleSysFire {α : Type} (s : ThrottleSys α) (t : Nat) : ThrottleSys α :=
  let due := s.live.filter fun e => e.fireAt ≤ t
  { s with
    live := s.live.filter fun e => ¬ e.fireAt ≤ t,
    timerVar := if due.isEmpty then s.timerVar else none }

/-- The wrapper body: when `timer` is `null`, invoke `fn` and schedule a new
cooldown timer with a fresh handle; otherwise do nothing. -/
def throttleSysCall {α : Type} (delay : Nat) (s : ThrottleSys α) (t : Nat) (a : α) :
    ThrottleSys α :=
  match s.timerVar with
  | some _ => s
  | none =>
    { live := s.live ++ [⟨s.nextId, t + delay⟩],
      timerVar := some s.nextId,
      nextId := s.nextId + 1,
      calls := s.calls ++ [a] }

/-- One external call event in the handle-level throttle model. -/
def throttleSysStep {α : Type} (delay : Nat) (s : ThrottleSys α) (ev : Nat × α) :
    ThrottleSys α :=
  throttleSysCall delay (throttleSysFire s ev.1) ev.1 ev.2

/-- Run of the handle-level throttle model. -/
def throttleSysRun {α : Type} (delay : Nat) (s : ThrottleSys α) (l : List (Nat × α)) :
    ThrottleSys α :=
  l.foldl (throttleSysStep delay) s

/-- A live timer entry of a debounce wrapper: handle, deadline and the
captured arguments. -/
structure DTimerEntry (α : Type) where
  id : Nat
  fireAt : Nat
  args : α

/-- Handle-level state of one `debounce` wrapper. -/
structure DebounceSys (α : Type) where
  live : List (DTimerEntry α)
  timerVar : Option Nat
  nextId : Nat
  calls : List α

/-- Initial handle-level debounce state. -/
def debounceSysInit {α : Type} : DebounceSys α := ⟨[], none, 1, []⟩

/-- Fire every due timer (deadline `≤ t`): each runs `() => { fn(...args) }`
and leaves the live set.  The debounce callback does not touch the `timer`
variable. -/
def debounceSysFire {α : Type} (s : DebounceSys α) (t : Nat) : DebounceSys α :=
  { s with
    live := s.live.filter fun e => ¬ e.fireAt ≤ t,
    calls := s.calls ++ (s.live.filter fun e => e.fireAt ≤ t).map DTimerEntry.args }

/-- The wrapper body: `if (timer) clearTimeout(timer); timer =
setTimeout(() => fn(...args), delay)`. -/
def debounceSysCall {α : Type} (delay : Nat) (s : DebounceSys α) (t : Nat) (a : α) :
    DebounceSys α :=
  let cleared :=
    match s.timerVar with
    | some id => s.live.filter fun e => e.id ≠ id
    | none => s.live
  { live := cleared ++ [⟨s.nextId, t + delay, a⟩],
    timerVar := some s.nextId,
    nextId := s.nextId + 1,
    calls := s.calls }

/-- One external call event in the handle-level debounce model. -/
def debounceSysStep {α : Type} (delay : Nat) (s : DebounceSys α) (ev : Nat × α) :
    DebounceSys α :=
  debounceSysCall delay (debounceSysFire s ev.1) ev.1 ev.2

/-- Run of the handle-level debounce model. -/
def debounceSysRun {α : Type} (delay : Nat) (s : DebounceSys α) (l : List (Nat × α)) :
    DebounceSys α :=
  l.foldl (debounceSysStep delay) s

/-- A pair of wrappers produced by separate calls (one `throttle`, one
`debounce`) driven by one interleaved event stream: each event is addressed
to one of the two wrappers. -/
def pairStep {α : Type} (dt dd : Nat) (p : ThrottleSys α × DebounceSys α)
    (ev : Sum (Nat × α) (Nat × α)) : ThrottleSys α × DebounceSys α :=
  match ev with
  | .inl e => (throttleSysStep dt p.1 e, p.2)
  | .inr e => (p.1, debounceSysStep dd p.2 e)

/-- Run of the interleaved pair. -/
def pairRun {α : Type} (dt dd : Nat) (p : ThrottleSys α × DebounceSys α)
    (l : List (Sum (Nat × α) (Nat × α))) : ThrottleSys α × DebounceSys α :=
  l.foldl (pairStep dt dd) p

/-- The events of an interleaved stream addressed to the throttle wrapper. -/
def leftEvents {α : Type} (l : List (Sum (Nat × α) (Nat × α))) : List (Nat × α) :=
  l.filterMap fun ev => match ev with | .inl e => some e | .inr _ => none

/-- The events of an interleaved stream addressed to the debounce wrapper. -/
def rightEvents {α : Type} (l : List (Sum (Nat × α) (Nat × α))) : List (Nat × α) :=
  l.filterMap fun ev => match ev with | .inl _ => none | .inr e => some e

/-!
### throttle with a throwing wrapped function

`throttleCallExc` is the throttle wrapper body where the wrapped `fn` may
throw: `fn(...args)` runs before `timer = setTimeout(...)`, so when `fn`
throws the exception propagates out of the wrapper and the `setTimeout` line
is never reached.  The boolean result records whether an exception escaped;
`calls` records the invocation of `fn` (which happened, then threw).
-/

/-- The throttle wrapper body with a possibly-throwing `fn` (`throws a = true`
means the invocation `fn(a)` throws). -/
def throttleCallExc {α : Type} (delay : Nat) (throws : α → Bool) (s : ThrottleState α)
    (t : Nat) (a : α) : ThrottleState α × Bool :=
  match s.cooldownUntil with
  | some _ => (s, false)
  | none =>
    if throws a then ({ s with calls := s.calls ++ [a] }, true)
    else ({ cooldownUntil := some (t + delay), calls := s.calls ++ [a] }, false)

/-!
### Specification helpers

`indexOfCoerced` states, in the vocabulary of the specification, which
numeric value `isIndexOf` ends up testing: the number itself, the `Number`
coercion of a non-empty string, and nothing for any other value.
-/

/-- The numeric value `isIndexOf` tests after the optional string coercion. -/
def indexOfCoerced : JSVal → Option JSNum
  | .num n => some n
  | .str s => if s.isEmpty then none else some (jsStringToNumber s)
  | _ => none

/-- Claim C4: `isIndexOf(idx, array)` returns true iff `idx` — after numeric
coercion when `idx` is a non-empty string — is an integer in
`[0, array.length)`; it returns false for non-integer numbers, negative
numbers, out-of-range numbers, the empty string, and every value that is
neither a string nor a number; and on the array `[1,2,3]` it gives the listed
results for `0`, `3`, `'2'`, `-1`, `1.5` and `null`. -/
theorem isIndexOf_contract :
    (∀ (v : JSVal) (len : Nat),
      isIndexOf v len = true ↔
        ∃ q : ℚ, indexOfCoerced v = some (.val q) ∧ q.den = 1 ∧ 0 ≤ q ∧ q < (len : ℚ)) ∧
    isIndexOf (.num (.val 0)) 3 = true ∧
    isIndexOf (.num (.val 3)) 3 = false ∧
    isIndexOf (.str "2") 3 = true ∧
    isIndexOf (.num (.val (-1))) 3 = false ∧
    isIndexOf (.num (.val (mkRat 3 2))) 3 = false ∧
    isIndexOf .nullV 3 = false ∧
    isIndexOf (.str "") 3 = false := by
  refine ⟨fun v len => ?_, by decide, by decide, by decide, by decide, by decide,
    by decide, by decide⟩
  cases v with
  | num n =>
    cases n with
    | nan => simp [isIndexOf, indexOfCoerced, jsIsNaN]
    | inf neg => simp [isIndexOf, indexOfCoerced, jsIsNaN, jsIsInteger]
    | val q =>
      simp [isIndexOf, indexOfCoerced, jsIsNaN, jsIsInteger, jsNumNonneg, jsNumLtNat,
        Nat.beq_eq_true_eq, and_assoc]
  | str s =>
    by_cases hs : s.isEmpty
    · simp [isIndexOf, indexOfCoerced, hs]
    · cases hn : jsStringToNumber s with
      | nan => simp [isIndexOf, indexOfCoerced, hs, hn, jsIsNaN]
      | inf neg => simp [isIndexOf, indexOfCoerced, hs, hn, jsIsNaN, jsIsInteger]
      | val q =>
        simp [isIndexOf, indexOfCoerced, hs, hn, jsIsNaN, jsIsInteger, jsNumNonneg,
          jsNumLtNat, Nat.beq_eq_true_eq, and_assoc]
  | boolV b => simp [isIndexOf, indexOfCoerced]
  | nullV => simp [isIndexOf, indexOfCoerced]
  | undef => simp [isIndexOf, indexOfCoerced]
  | symV r => simp [isIndexOf, indexOfCoerced]
  | objV r => simp [isIndexOf, indexOfCoerced]
  | arrV r l => simp [isIndexOf, indexOfCoerced]
  | funcV r src => simp [isIndexOf, indexOfCoerced]
  | promiseV r => simp [isIndexOf, indexOfCoerced]

/-- Claim C5: `isAsyncFunction(v)` returns true iff `v` is callable and its
own string representation begins with the `async` marker token (determined
without invoking `v`); a function declared with the marker returns true, and
a function not so declared returns false even if its body returns an
awaitable. -/
theorem isAsyncFunction_marker_heuristic :
    (∀ v : JSVal, isAsyncFunction v = true ↔
        jsTypeof v = "function" ∧
          ∃ r src, v = .funcV r src ∧ strStartsWith src "async" = true) ∧
    isAsyncFunction (.funcV 0 "async () => 1") = true ∧
    isAsyncFunction (.funcV 1 "() => Promise.resolve(1)") = false := by
  refine ⟨fun v => ?_, by decide, by decide⟩
  cases v with
  | funcV r src =>
    constructor
    · intro h
      exact ⟨rfl, r, src, rfl, h⟩
    · rintro ⟨-, r', src', heq, h⟩
      cases heq
      exact h
  | _ => simp [isAsyncFunction, jsTypeof]

/-- Strict equality is reflexive on every value other than NaN. -/
theorem jsStrictEq_refl (v : JSVal) (h : v ≠ .num .nan) : jsStrictEq v v = true := by
  cases v with
  | num n =>
    cases n with
    | nan => exact absurd rfl h
    | inf neg => simp [jsStrictEq]
    | val q => simp [jsStrictEq]
  | str s => simp [jsStrictEq]
  | boolV b => simp [jsStrictEq]
  | nullV => simp [jsStrictEq]
  | undef => simp [jsStrictEq]
  | symV r => simp [jsStrictEq]
  | objV r => simp [jsStrictEq]
  | arrV r l => simp [jsStrictEq]
  | funcV r src => simp [jsStrictEq]
  | promiseV r => simp [jsStrictEq]

/-- Claim C6, counterexample: `arraysEqual(xs, xs)` is not true for every
array — for `xs = [NaN]` it returns false, because `NaN === NaN` is false. -/
theorem arraysEqual_nan_refl_cex :
    arraysEqual [.num .nan] [.num .nan] = false := by decide

/-- Claim C6, amended: `arraysEqual(xs, xs)` returns true for every array
`xs` none of whose elements is NaN (strict equality is irreflexive at NaN,
so the unrestricted statement fails). -/
theorem arraysEqual_refl_of_no_nan (xs : List JSVal)
    (h : ∀ v ∈ xs, v ≠ .num .nan) : arraysEqual xs xs = true := by
  unfold arraysEqual
  simp only [beq_self_eq_true, Bool.true_and, List.all_eq_true, List.mem_range]
  intro i hi
  rw [List.getD_eq_getElem _ _ hi]
  exact jsStrictEq_refl _ (h _ (xs.getElem_mem hi))

/-- Witness for the amended claim C6 at the concrete array `[1, 'a']`. -/
theorem arraysEqual_refl_witness :
    arraysEqual [.num (.val 1), .str "a"] [.num (.val 1), .str "a"] = true :=
  arraysEqual_refl_of_no_nan [.num (.val 1), .str "a"] (by decide)

/-- Claim C7: every type predicate is total — on any modelled value it
evaluates to a boolean (no exception), and values outside the accepted class
yield `false`. -/
theorem predicates_total_never_throw :
    (∀ (v : JSVal) (len : Nat), isIndexOf v len = true ∨ isIndexOf v len = false) ∧
    (∀ v : JSVal, isArray v = true ∨ isArray v = false) ∧
    (∀ v : JSVal, isIndexable v = true ∨ isIndexable v = false) ∧
    (∀ v : JSVal, isString v = true ∨ isString v = false) ∧
    (∀ v : JSVal, isNumber v = true ∨ isNumber v = false) ∧
    (∀ v : JSVal, isPromise v = true ∨ isPromise v = false) ∧
    (∀ v : JSVal, isAsyncFunction v = true ∨ isAsyncFunction v = false) ∧
    (∀ (v : JSVal) (len : Nat),
      jsTypeof v ≠ "string" → jsTypeof v ≠ "number" → isIndexOf v len = false) ∧
    (∀ v : JSVal, (∀ r l, v ≠ .arrV r l) → isArray v = false) ∧
    (∀ v : JSVal, (∀ r l, v ≠ .arrV r l) → isIndexable v = false) ∧
    (∀ v : JSVal, (∀ s, v ≠ .str s) → isString v = false) ∧
    (∀ v : JSVal, (∀ n, v ≠ .num n) → isNumber v = false) ∧
    (∀ v : JSVal, (∀ r, v ≠ .promiseV r) → isPromise v = false) ∧
    (∀ v : JSVal, jsTypeof v ≠ "function" → isAsyncFunction v = false) := by
  refine ⟨fun v len => Bool.eq_false_or_eq_true _,
    fun v => Bool.eq_false_or_eq_true _, fun v => Bool.eq_false_or_eq_true _,
    fun v => Bool.eq_false_or_eq_true _, fun v => Bool.eq_false_or_eq_true _,
    fun v => Bool.eq_false_or_eq_true _, fun v => Bool.eq_false_or_eq_true _,
    fun v len h1 h2 => ?_, fun v h => ?_, fun v h => ?_, fun v h => ?_,
    fun v h => ?_, fun v h => ?_, fun v h => ?_⟩
  · cases v <;> first
      | rfl
      | exact absurd rfl h1
      | exact absurd rfl h2
  · cases v <;> first | rfl | exact absurd rfl (h _ _)
  · cases v <;> first | rfl | exact absurd rfl (h _ _)
  · cases v <;> first | rfl | exact absurd rfl (h _)
  · cases v <;> first | rfl | exact absurd rfl (h _)
  · cases v <;> first | rfl | exact absurd rfl (h _)
  · cases v <;> first | rfl | exact absurd rfl h

/-- Witness for claim C7 at concrete out-of-class inputs. -/
theorem predicates_total_witness :
    isIndexOf (.boolV true) 3 = false ∧ isArray .nullV = false ∧
    isIndexable (.objV 0) = false ∧ isString (.num .nan) = false ∧
    isNumber (.str "1") = false ∧ isPromise (.objV 1) = false ∧
    isAsyncFunction (.num (.val 0)) = false :=
  ⟨predicates_total_never_throw.2.2.2.2.2.2.2.1 (.boolV true) 3 (by decide) (by decide),
   predicates_total_never_throw.2.2.2.2.2.2.2.2.1 .nullV (by intro r l h; cases h),
   predicates_total_never_throw.2.2.2.2.2.2.2.2.2.1 (.objV 0) (by intro r l h; cases h),
   predicates_total_never_throw.2.2.2.2.2.2.2.2.2.2.1 (.num .nan) (by intro s h; cases h),
   predicates_total_never_throw.2.2.2.2.2.2.2.2.2.2.2.1 (.str "1") (by intro n h; cases h),
   predicates_total_never_throw.2.2.2.2.2.2.2.2.2.2.2.2.1 (.objV 1) (by intro r h; cases h),
   predicates_total_never_throw.2.2.2.2.2.2.2.2.2.2.2.2.2 (.num (.val 0)) (by decide)⟩

/-- The elements kept by a `Set` traversal match nothing previously seen and
are pairwise distinct under SameValueZero. -/
theorem uniqueGo_disjoint_pairwise (l : List JSVal) :
    ∀ seen : List JSVal,
      (∀ z ∈ uniqueGo seen l, ∀ y ∈ seen, sameValueZero y z = false) ∧
      (uniqueGo seen l).Pairwise (fun a b => sameValueZero a b = false) := by
  induction l with
  | nil => intro seen; exact ⟨fun z hz => absurd hz (List.not_mem_nil z), List.Pairwise.nil⟩
  | cons x xs ih =>
    intro seen
    by_cases hx : setHas seen x = true
    · simpa [uniqueGo, hx] using ih seen
    · have hx' : ∀ y ∈ seen, sameValueZero y x = false := by
        intro y hy
        have := (List.any_eq_false).mp (Bool.not_eq_true _ ▸ hx) y hy
        simpa using this
      have ihx := ih (x :: seen)
      refine ⟨?_, ?_⟩
      · intro z hz y hy
        rw [uniqueGo, if_neg hx] at hz
        rcases List.mem_cons.mp hz with rfl | hz'
        · exact hx' y hy
        · exact ihx.1 z hz' y (List.mem_cons_of_mem x hy)
      · rw [uniqueGo, if_neg hx]
        exact List.Pairwise.cons (fun z hz => ihx.1 z hz x (List.mem_cons_self x seen)) ihx.2

/-- A `Set` traversal leaves a list unchanged when its elements are pairwise
distinct under SameValueZero and none matches the already-seen values. -/
theorem uniqueGo_of_pairwise (l : List JSVal)
    (hp : l.Pairwise (fun a b => sameValueZero a b = false)) :
    ∀ seen : List JSVal, (∀ z ∈ l, ∀ y ∈ seen, sameValueZero y z = false) →
      uniqueGo seen l = l := by
  induction hp with
  | nil => intro seen _; rfl
  | @cons x xs hx hxs ih =>
    intro seen hd
    have hseen : setHas seen x = false := by
      apply List.any_eq_false.mpr
      intro y hy
      simpa using hd x (List.mem_cons_self x xs) y hy
    rw [uniqueGo, hseen]
    simp only [Bool.false_eq_true, if_false]
    congr 1
    apply ih
    intro z hz y hy
    rcases List.mem_cons.mp hy with rfl | hy'
    · exact hx z hz
    · exact hd z (List.mem_cons_of_mem x hz) y hy'

/-- Claim C8: `unique` is idempotent — `unique(unique(xs))` equals
`unique(xs)` for every array, element-wise in first-occurrence order. -/
theorem unique_idempotent (xs : List JSVal) : unique (unique xs) = unique xs :=
  uniqueGo_of_pairwise (unique xs) (uniqueGo_disjoint_pairwise xs []).2 []
    (fun _ _ y hy => absurd hy (List.not_mem_nil y))

/-- `indexOf` misses every element that is not strictly equal to the item. -/
theorem jsIndexOfFrom_eq_neg_one (item : JSVal) (l : List JSVal)
    (h : ∀ x ∈ l, jsStrictEq x item = false) : ∀ i : Nat, jsIndexOfFrom item l i = -1 := by
  induction l with
  | nil => intro i; rfl
  | cons x xs ih =>
    intro i
    rw [jsIndexOfFrom, h x (List.mem_cons_self x xs)]
    simp only [Bool.false_eq_true, if_false]
    exact ih (fun y hy => h y (List.mem_cons_of_mem x hy)) (i + 1)

/-- Dropping all but the last element leaves exactly the last element. -/
theorem drop_pred_eq_getLast {α : Type} (l : List α) (h : l ≠ []) :
    l.drop (l.length - 1) = [l.getLast h] := by
  induction l with
  | nil => exact absurd rfl h
  | cons x xs ih =>
    cases xs with
    | nil => rfl
    | cons y ys =>
      have hne : y :: ys ≠ [] := List.cons_ne_nil y ys
      rw [List.getLast_cons hne]
      have : (x :: y :: ys).length - 1 = (y :: ys).length := by simp
      rw [this]
      have hlen : (y :: ys).length = ((y :: ys).length - 1) + 1 := by simp
      calc (x :: y :: ys).drop (y :: ys).length
          = (y :: ys).drop ((y :: ys).length - 1) := by rw [hlen]; rfl
        _ = [(y :: ys).getLast hne] := ih hne

/-- Claim C9: when the array is non-empty and contains no element strictly
equal to `item`, `remove(item, array)` does not leave the array unchanged —
`indexOf` yields `-1`, so `splice(-1, 1)` removes the last element, and the
returned value is the one-element array holding that last element. -/
theorem remove_absent_removes_last (item : JSVal) (arr : List JSVal)
    (h1 : arr ≠ []) (h2 : ∀ x ∈ arr, jsStrictEq x item = false) :
    remove item arr = (arr.dropLast, [arr.getLast h1]) := by
  have hidx : jsIndexOf item arr = -1 := jsIndexOfFrom_eq_neg_one item arr h2 0
  have hlen : 1 ≤ arr.length := List.length_pos.mpr h1
  rw [remove, hidx, jsSplice1]
  have hstart : ((-1 : Int) < 0) = True := by simp
  have hmax : max ((arr.length : Int) + (-1)) 0 = ((arr.length - 1 : Nat) : Int) := by
    omega
  simp only [if_pos (by omega : (-1 : Int) < 0), hmax, Int.toNat_natCast]
  have hdropLast : arr.take (arr.length - 1) = arr.dropLast := by
    rw [List.dropLast_eq_take]
  have hdrop : arr.drop (arr.length - 1 + 1) = [] := by
    apply List.drop_eq_nil_of_le
    omega
  rw [hdropLast, hdrop, List.append_nil, drop_pred_eq_getLast arr h1]
  rfl

/-- Witness for claim C9: removing the absent item `null` from `[1, 2]`
removes and returns the last element `2`. -/
theorem remove_absent_witness :
    remove .nullV [.num (.val 1), .num (.val 2)] =
      ([.num (.val 1)], [.num (.val 2)]) := by
  rw [remove_absent_removes_last .nullV [.num (.val 1), .num (.val 2)]
    (by decide) (by decide)]
  rfl

/-- Calls arriving strictly before the cooldown deadline leave a throttle
wrapper's state unchanged. -/
theorem throttleRun_dropped {α : Type} (delay : Nat) (s : ThrottleState α) (e : Nat)
    (hs : s.cooldownUntil = some e) (l : List (Nat × α)) (hl : ∀ p ∈ l, p.1 < e) :
    throttleRun delay s l = s := by
  induction l with
  | nil => rfl
  | cons p rest ih =>
    have hp : p.1 < e := hl p (List.mem_cons_self p rest)
    have hstep : throttleStep delay s p = s := by
      simp [throttleStep, throttleFire, throttleCall, hs, Nat.not_le.mpr hp]
    calc throttleRun delay s (p :: rest)
        = throttleRun delay (throttleStep delay s p) rest := rfl
      _ = throttleRun delay s rest := by rw [hstep]
      _ = s := ih (fun q hq => hl q (List.mem_cons_of_mem p hq))

/-- Claim C1: with no active cooldown timer a wrapper call invokes `fn`
synchronously with the call's arguments and starts a cooldown timer of
`delay` ms; a call during the cooldown is silently dropped; and over a run —
an initial call, any calls within `delay` ms of it, and a call at least
`delay` ms after it — `fn` is invoked exactly twice: once for the initial
call and once for the late call. -/
theorem throttle_cooldown_spec {α : Type} (delay : Nat) :
    (∀ (s : ThrottleState α) (t : Nat) (a : α), s.cooldownUntil = none →
        throttleCall delay s t a =
          { cooldownUntil := some (t + delay), calls := s.calls ++ [a] }) ∧
    (∀ (s : ThrottleState α) (t : Nat) (a : α) (e : Nat), s.cooldownUntil = some e →
        throttleCall delay s t a = s) ∧
    (∀ (t0 t1 : Nat) (a0 a1 : α) (mid : List (Nat × α)), 0 < delay →
        (∀ p ∈ mid, t0 ≤ p.1 ∧ p.1 < t0 + delay) → t0 + delay ≤ t1 →
        (throttleRun delay throttleInit ((t0, a0) :: (mid ++ [(t1, a1)]))).calls
          = [a0, a1]) := by
  refine ⟨?_, ?_, ?_⟩
  · intro s t a h
    simp [throttleCall, h]
  · intro s t a e h
    simp [throttleCall, h]
  · intro t0 t1 a0 a1 mid _ hmid ht1
    have hstep0 : throttleStep delay (throttleInit (α := α)) (t0, a0) =
        ⟨some (t0 + delay), [a0]⟩ := rfl
    calc (throttleRun delay throttleInit ((t0, a0) :: (mid ++ [(t1, a1)]))).calls
        = (throttleRun delay ⟨some (t0 + delay), [a0]⟩ (mid ++ [(t1, a1)])).calls := by
          rw [show throttleRun delay throttleInit ((t0, a0) :: (mid ++ [(t1, a1)])) =
            throttleRun delay (throttleStep delay throttleInit (t0, a0))
              (mid ++ [(t1, a1)]) from rfl, hstep0]
      _ = (throttleRun delay
            (throttleRun delay ⟨some (t0 + delay), [a0]⟩ mid) [(t1, a1)]).calls := by
          rw [throttleRun, throttleRun, throttleRun, List.foldl_append]
      _ = (throttleRun delay ⟨some (t0 + delay), [a0]⟩ [(t1, a1)]).calls := by
          rw [throttleRun_dropped delay _ (t0 + delay) rfl mid
            (fun p hp => (hmid p hp).2)]
      _ = [a0, a1] := by
          simp [throttleRun, throttleStep, throttleFire, throttleCall, ht1]

/-- Witness for claim C1: delay 10, initial call at 0, dropped calls at 3
and 5, second invocation at 12. -/
theorem throttle_cooldown_witness :
    (throttleRun 10 throttleInit ((0, 1) :: ([(3, 20), (5, 30)] ++ [(12, 2)]))).calls
      = [1, 2] :=
  (throttle_cooldown_spec (α := Nat) 10).2.2 0 12 1 2 [(3, 20), (5, 30)] (by decide)
    (by decide) (by decide)

/-- During a burst of calls each arriving before the current pending
deadline, a debounce wrapper only replaces its pending invocation: the
pending entry always tracks the latest call and no invocation happens. -/
theorem debounceRun_burst {α : Type} (delay : Nat) (l : List (Nat × α)) :
    ∀ (t : Nat) (a : α) (c : List α),
      (∀ p ∈ l, t ≤ p.1 ∧ p.1 < t + delay) →
      l.Pairwise (fun p q => p.1 ≤ q.1) →
      debounceRun delay ⟨some (t + delay, a), c⟩ l =
        ⟨some ((l.getLastD (t, a)).1 + delay, (l.getLastD (t, a)).2), c⟩ := by
  induction l with
  | nil => intro t a c _ _; rfl
  | cons p rest ih =>
    intro t a c hl hp
    obtain ⟨hle, hlt⟩ := hl p (List.mem_cons_self p rest)
    have hstep : debounceStep delay ⟨some (t + delay, a), c⟩ p =
        ⟨some (p.1 + delay, p.2), c⟩ := by
      simp [debounceStep, debounceFire, debounceCall, Nat.not_le.mpr hlt]
    have hrest : ∀ q ∈ rest, p.1 ≤ q.1 ∧ q.1 < p.1 + delay := by
      intro q hq
      refine ⟨(List.pairwise_cons.mp hp).1 q hq, ?_⟩
      have := (hl q (List.mem_cons_of_mem p hq)).2
      omega
    calc debounceRun delay ⟨some (t + delay, a), c⟩ (p :: rest)
        = debounceRun delay ⟨some (p.1 + delay, p.2), c⟩ rest := by
          rw [show debounceRun delay ⟨some (t + delay, a), c⟩ (p :: rest) =
            debounceRun delay (debounceStep delay ⟨some (t + delay, a), c⟩ p) rest
            from rfl, hstep]
      _ = ⟨some ((rest.getLastD (p.1, p.2)).1 + delay, (rest.getLastD (p.1, p.2)).2), c⟩ :=
          ih p.1 p.2 c hrest (List.pairwise_cons.mp hp).2
      _ = ⟨some (((p :: rest).getLastD (t, a)).1 + delay,
            ((p :: rest).getLastD (t, a)).2), c⟩ := by
          rw [List.getLastD_cons]

/-- Claim C2: each wrapper call cancels the previously scheduled pending
invocation and schedules a new one `delay` ms later with the latest
arguments, invoking nothing synchronously; and for any burst of calls within
a window smaller than `delay` ms, `fn` is eventually invoked exactly once,
with the arguments of the last call. -/
theorem debounce_trailing_spec {α : Type} (delay : Nat) :
    (∀ (s : DebounceState α) (t : Nat) (a : α),
        debounceCall delay s t a = ⟨some (t + delay, a), s.calls⟩) ∧
    (∀ (t0 : Nat) (a0 : α) (rest : List (Nat × α)), 0 < delay →
        (∀ p ∈ rest, t0 ≤ p.1 ∧ p.1 < t0 + delay) →
        rest.Pairwise (fun p q => p.1 ≤ q.1) →
        (debounceRun delay debounceInit ((t0, a0) :: rest)).calls = [] ∧
        debounceFlush (debounceRun delay debounceInit ((t0, a0) :: rest)) =
          [(rest.getLastD (t0, a0)).2]) := by
  refine ⟨fun s t a => rfl, ?_⟩
  intro t0 a0 rest _ hrest hpair
  have hrun : debounceRun delay debounceInit ((t0, a0) :: rest) =
      ⟨some ((rest.getLastD (t0, a0)).1 + delay, (rest.getLastD (t0, a0)).2), []⟩ := by
    rw [show debounceRun delay debounceInit ((t0, a0) :: rest) =
      debounceRun delay (debounceStep delay debounceInit (t0, a0)) rest from rfl,
      show debounceStep delay (debounceInit (α := α)) (t0, a0) =
        ⟨some (t0 + delay, a0), []⟩ from rfl]
    exact debounceRun_burst delay rest t0 a0 [] hrest hpair
  rw [hrun]
  exact ⟨rfl, rfl⟩

/-- Witness for claim C2: delay 10, calls at 0, 3 and 5; nothing fires during
the burst and the eventual single invocation uses the last call's argument. -/
theorem debounce_trailing_witness :
    (debounceRun 10 debounceInit ((0, 1) :: [(3, 2), (5, 3)])).calls = ([] : List Nat) ∧
    debounceFlush (debounceRun 10 debounceInit ((0, 1) :: [(3, 2), (5, 3)])) = [3] := by
  have h := (debounce_trailing_spec (α := Nat) 10).2 0 1 [(3, 2), (5, 3)] (by decide)
    (by decide) (by decide)
  simpa using h

/-- Claim C10: if the wrapped function throws on an eligible (non-cooldown)
call, the exception propagates out of the wrapper, no cooldown timer is
started (the timer variable is still null), and the very next call invokes
`fn` again regardless of elapsed time. -/
theorem throttle_throwing_fn {α : Type} (delay : Nat) (throws : α → Bool)
    (s : ThrottleState α) (t : Nat) (a : α)
    (helig : s.cooldownUntil = none) (hthrow : throws a = true) :
    throttleCallExc delay throws s t a = ({ s with calls := s.calls ++ [a] }, true) ∧
    (throttleCallExc delay throws s t a).1.cooldownUntil = none ∧
    (∀ (u : Nat) (b : α),
      (throttleCallExc delay throws (throttleCallExc delay throws s t a).1 u b).1.calls
        = s.calls ++ [a, b]) := by
  have h1 : throttleCallExc delay throws s t a =
      ({ s with calls := s.calls ++ [a] }, true) := by
    simp [throttleCallExc, helig, hthrow]
  refine ⟨h1, by rw [h1]; exact helig, ?_⟩
  intro u b
  rw [h1]
  by_cases hb : throws b = true
  · simp [throttleCallExc, helig, hb]
  · simp [throttleCallExc, helig, hb]

/-- Witness for claim C10: a function that always throws is invoked at time 0
and again by the immediately following call. -/
theorem throttle_throwing_witness :
    throttleCallExc 5 (fun _ : Nat => true) throttleInit 0 7 = (⟨none, [7]⟩, true) ∧
    (throttleCallExc 5 (fun _ : Nat => true)
      (throttleCallExc 5 (fun _ : Nat => true) throttleInit 0 7).1 100 8).1.calls
        = [7, 8] := by
  have h := throttle_throwing_fn 5 (fun _ : Nat => true) throttleInit 0 7 rfl rfl
  exact ⟨h.1, h.2.2 100 8⟩

/-- Invariant of the handle-level throttle state: at most one live timer,
and none at all while the timer variable is null. -/
def throttleSysInv {α : Type} (s : ThrottleSys α) : Prop :=
  s.live.length ≤ 1 ∧ (s.timerVar = none → s.live = [])

/-- Firing due timers preserves the throttle invariant. -/
theorem throttleSysFire_inv {α : Type} (s : ThrottleSys α) (t : Nat)
    (h : throttleSysInv s) : throttleSysInv (throttleSysFire s t) := by
  obtain ⟨hlen, hnone⟩ := h
  refine ⟨le_trans (List.length_filter_le _ _) hlen, ?_⟩
  intro hv
  simp only [throttleSysFire] at hv ⊢
  cases hl : s.live with
  | nil => simp
  | cons e rest =>
    have hrest : rest = [] := by
      rw [hl] at hlen
      simpa using hlen
    subst hrest
    rw [hl] at hv
    by_cases hd : e.fireAt ≤ t
    · simp [List.filter_cons, hd]
    · simp [List.filter_cons, hd] at hv
      have := hnone hv
      rw [hl] at this
      exact absurd this (List.cons_ne_nil e [])

/-- The throttle wrapper body preserves the invariant. -/
theorem throttleSysCall_inv {α : Type} (delay : Nat) (s : ThrottleSys α) (t : Nat) (a : α)
    (h : throttleSysInv s) : throttleSysInv (throttleSysCall delay s t a) := by
  obtain ⟨hlen, hnone⟩ := h
  cases hv : s.timerVar with
  | some id =>
    rw [throttleSysCall, hv]
    exact ⟨hlen, fun h' => hnone h'⟩
  | none =>
    rw [throttleSysCall, hv]
    have : s.live = [] := hnone hv
    rw [this]
    exact ⟨by simp, fun h' => by simp at h'⟩

/-- One throttle event preserves the invariant. -/
theorem throttleSysStep_inv {α : Type} (delay : Nat) (s : ThrottleSys α) (ev : Nat × α)
    (h : throttleSysInv s) : throttleSysInv (throttleSysStep delay s ev) :=
  throttleSysCall_inv delay _ ev.1 ev.2 (throttleSysFire_inv s ev.1 h)

/-- Every run from an invariant state preserves the throttle invariant. -/
theorem throttleSysRun_inv {α : Type} (delay : Nat) (l : List (Nat × α)) :
    ∀ s : ThrottleSys α, throttleSysInv s → throttleSysInv (throttleSysRun delay s l) := by
  induction l with
  | nil => intro s h; exact h
  | cons ev rest ih =>
    intro s h
    exact ih (throttleSysStep delay s ev) (throttleSysStep_inv delay s ev h)

/-- Invariant of the handle-level debounce state: at most one live timer, and
the timer variable holds the handle of every live timer. -/
def debounceSysInv {α : Type} (s : DebounceSys α) : Prop :=
  s.live.length ≤ 1 ∧ ∀ e ∈ s.live, s.timerVar = some e.id

/-- Firing due timers preserves the debounce invariant. -/
theorem debounceSysFire_inv {α : Type} (s : DebounceSys α) (t : Nat)
    (h : debounceSysInv s) : debounceSysInv (debounceSysFire s t) := by
  obtain ⟨hlen, hvar⟩ := h
  refine ⟨le_trans (List.length_filter_le _ _) hlen, ?_⟩
  intro e he
  exact hvar e (List.mem_of_mem_filter he)

/-- The debounce wrapper body preserves the invariant. -/
theorem debounceSysCall_inv {α : Type} (delay : Nat) (s : DebounceSys α) (t : Nat) (a : α)
    (h : debounceSysInv s) : debounceSysInv (debounceSysCall delay s t a) := by
  obtain ⟨hlen, hvar⟩ := h
  have hcleared :
      (match s.timerVar with
        | some id => s.live.filter fun e => e.id ≠ id
        | none => s.live) = [] := by
    cases hv : s.timerVar with
    | some id =>
      apply List.filter_eq_nil_iff.mpr
      intro e he
      have := hvar e he
      rw [hv] at this
      simp only [Option.some.injEq] at this
      simp [this]
    | none =>
      cases hl : s.live with
      | nil => rfl
      | cons e rest =>
        have := hvar e (by rw [hl]; exact List.mem_cons_self e rest)
        rw [hv] at this
        exact absurd this (by simp)
  rw [debounceSysCall]
  simp only [hcleared, List.nil_append]
  exact ⟨by simp, fun e he => by
    simp only [List.mem_singleton] at he
    subst he
    rfl⟩

/-- One debounce event preserves the invariant. -/
theorem debounceSysStep_inv {α : Type} (delay : Nat) (s : DebounceSys α) (ev : Nat × α)
    (h : debounceSysInv s) : debounceSysInv (debounceSysStep delay s ev) :=
  debounceSysCall_inv delay _ ev.1 ev.2 (debounceSysFire_inv s ev.1 h)

/-- Every run from an invariant state preserves the debounce invariant. -/
theorem debounceSysRun_inv {α : Type} (delay : Nat) (l : List (Nat × α)) :
    ∀ s : DebounceSys α, debounceSysInv s → debounceSysInv (debounceSysRun delay s l) := by
  induction l with
  | nil => intro s h; exact h
  | cons ev rest ih =>
    intro s h
    exact ih (debounceSysStep delay s ev) (debounceSysStep_inv delay s ev h)

/-- Claim C3: in every reachable state of a wrapper (any sequence of calls
and timer firings from a fresh wrapper) at most one live timer handle exists,
for throttle and for debounce wrappers alike; and two wrappers produced by
separate calls share no state — an interleaved run of the pair equals the two
independent runs on each wrapper's own events. -/
theorem timer_handle_invariant {α : Type} :
    (∀ (delay : Nat) (l : List (Nat × α)),
        (throttleSysRun delay throttleSysInit l).live.length ≤ 1) ∧
    (∀ (delay : Nat) (l : List (Nat × α)),
        (debounceSysRun delay debounceSysInit l).live.length ≤ 1) ∧
    (∀ (dt dd : Nat) (l : List (Sum (Nat × α) (Nat × α)))
        (p : ThrottleSys α × DebounceSys α),
        pairRun dt dd p l =
          (throttleSysRun dt p.1 (leftEvents l), debounceSysRun dd p.2 (rightEvents l))) := by
  refine ⟨?_, ?_, ?_⟩
  · intro delay l
    exact (throttleSysRun_inv delay l throttleSysInit
      ⟨by simp [throttleSysInit], fun _ => rfl⟩).1
  · intro delay l
    exact (debounceSysRun_inv delay l debounceSysInit
      ⟨by simp [debounceSysInit], fun e he => absurd he (List.not_mem_nil e)⟩).1
  · intro dt dd l
    induction l with
    | nil => intro p; rfl
    | cons ev rest ih =>
      intro p
      cases ev with
      | inl e =>
        calc pairRun dt dd p (.inl e :: rest)
            = pairRun dt dd (throttleSysStep dt p.1 e, p.2) rest := rfl
          _ = (throttleSysRun dt (throttleSysStep dt p.1 e) (leftEvents rest),
                debounceSysRun dd p.2 (rightEvents rest)) := ih _
          _ = (throttleSysRun dt p.1 (leftEvents (.inl e :: rest)),
                debounceSysRun dd p.2 (rightEvents (.inl e :: rest))) := by
              simp [leftEvents, rightEvents, List.filterMap_cons, throttleSysRun]
      | inr e =>
        calc pairRun dt dd p (.inr e :: rest)
            = pairRun dt dd (p.1, debounceSysStep dd p.2 e) rest := rfl
          _ = (throttleSysRun dt p.1 (leftEvents rest),
                debounceSysRun dd (debounceSysStep dd p.2 e) (rightEvents rest)) := ih _
          _ = (throttleSysRun dt p.1 (leftEvents (.inr e :: rest)),
                debounceSysRun dd p.2 (rightEvents (.inr e :: rest))) := by
              simp [leftEvents, rightEvents, List.filterMap_cons, debounceSysRun]

end UtilJs
